import Mathlib

/-!
Verification development for a small library management system.

The system keeps a catalog of books and a membership roster, lends and
returns books, computes overdue fines, searches the catalog, and persists
the whole store to a single backing file after every successful mutation.

Modelling conventions of the shallow embedding:
* the insertion-ordered mappings of the runtime are association lists
  (key/value pairs in insertion order, keys unique in well-formed stores);
* instants of time are integer seconds, calendar days are integer day
  numbers, and day d starts at second d * 86400; the runtime stores a due
  date as a calendar day and subtracting two instants truncates toward
  negative infinity when converted into whole days, which is Int.fdiv;
* monetary amounts are rationals;
* the backing file is a field of the store state: a save writes the
  serialized form there, and constructing a store reads it;
* a lookup that the runtime would perform on a missing key raises an
  unhandled error there; operations that can do so return Option, with
  none standing for that unhandled error.
-/

namespace LMS

/-- One catalog entry, mirroring the Book class of the source: identifier,
title, author, availability flag, optional borrower identifier and optional
due date (a calendar-day number). -/
structure Book where
  book_id : String
  title : String
  author : String
  is_available : Bool
  borrower : Option String
  due_date : Option Int
deriving DecidableEq

/-- One roster entry, mirroring the Member class of the source: identifier,
name, email, and the ordered list of identifiers of books currently held. -/
structure Member where
  member_id : String
  name : String
  email : String
  borrowed_books : List String
deriving DecidableEq

/-- A persisted section of entities: either the keyed-mapping shape written
by every save, or the legacy list shape in which each entity object embeds
its own identifier field. -/
inductive EntSec (α : Type) where
  | keyed (entries : List (String × α))
  | listed (entries : List α)
deriving DecidableEq

/-- A parsed backing file: a books section and a members section, each in
either of the two accepted shapes. -/
structure DiskData where
  books : EntSec Book
  members : EntSec Member
deriving DecidableEq

/-- The observable condition of the backing file when the store is
constructed: absent, present but not parseable, or parsed content. -/
inductive FileState where
  | missing
  | unparseable
  | parsed (d : DiskData)
deriving DecidableEq

/-- The store state: the books mapping, the members mapping, and the current
content of the backing file (none when no file has been written). -/
structure Library where
  books : List (String × Book)
  members : List (String × Member)
  disk : Option DiskData
deriving DecidableEq

/-- Fine charged per whole overdue day; process-wide constant of the source,
never persisted. -/
def fine_rate : ℚ := 1

/-- First value bound to a key in an association list, as a runtime mapping
lookup. -/
def lookupA {α : Type} : List (String × α) → String → Option α
  | [], _ => none
  | p :: rest, k => if p.1 = k then some p.2 else lookupA rest k

/-- In-place update of the value stored under a key, as mutation of the
object held in a runtime mapping; insertion order is unchanged. -/
def updAssoc {α : Type} (l : List (String × α)) (k : String) (f : α → α) :
    List (String × α) :=
  l.map fun p => if p.1 = k then (p.1, f p.2) else p

/-- Number of occurrences of a string in a list. -/
def countOcc : List String → String → Nat
  | [], _ => 0
  | y :: rest, x => (if y = x then 1 else 0) + countOcc rest x

/-- Removal of the first occurrence of a string, as the list remove of the
runtime. -/
def eraseFirst : List String → String → List String
  | [], _ => []
  | y :: rest, x => if y = x then rest else y :: eraseFirst rest x

/-- Decoding of a persisted books section into the in-memory mapping: the
keyed shape is taken as is, the legacy list shape is keyed by the
identifier field each entity embeds. -/
def decodeBooks : EntSec Book → List (String × Book)
  | .keyed entries => entries
  | .listed entries => entries.map fun b => (b.book_id, b)

/-- Decoding of a persisted members section; same contract as for books. -/
def decodeMembers : EntSec Member → List (String × Member)
  | .keyed entries => entries
  | .listed entries => entries.map fun m => (m.member_id, m)

/-- Serialized form of the store: every attribute of every entity, keyed by
identifier — the only shape a save ever writes. -/
def encode (books : List (String × Book)) (members : List (String × Member)) :
    DiskData :=
  ⟨.keyed books, .keyed members⟩

/-- save_data of the source: serialize the full mappings and overwrite the
backing file with them. -/
def save_data (st : Library) : Library :=
  { st with disk := some (encode st.books st.members) }

/-- load_data of the source, run once at store construction: an absent file
yields the empty store non-fatally; an unparseable file propagates a fatal
parse error; parsed content is decoded, either shape per section, with no
further validation. -/
def load_data : FileState → Except Unit Library
  | .missing => .ok ⟨[], [], none⟩
  | .unparseable => .error ()
  | .parsed d => .ok ⟨decodeBooks d.books, decodeMembers d.members, some d⟩

/-- add_book of the source: reject an already-present identifier, otherwise
insert a fresh available book and save. -/
def add_book (st : Library) (book_id title author : String) : Bool × Library :=
  if (lookupA st.books book_id).isSome then (false, st)
  else
    (true, save_data { st with
      books := st.books ++ [(book_id, ⟨book_id, title, author, true, none, none⟩)] })

/-- add_member of the source: reject an already-present identifier, otherwise
insert a fresh member with no borrowed books and save. -/
def add_member (st : Library) (member_id name email : String) : Bool × Library :=
  if (lookupA st.members member_id).isSome then (false, st)
  else
    (true, save_data { st with
      members := st.members ++ [(member_id, ⟨member_id, name, email, []⟩)] })

/-- Calendar day of an instant. -/
def dayOf (t : Int) : Int := Int.fdiv t 86400

/-- calculate_fine of the source: for a known, unavailable book with a due
date, the whole days elapsed since the start of the due day, truncated
toward negative infinity, times the fine rate when positive; zero in every
other case. -/
def calculate_fine (st : Library) (book_id : String) (now : Int) : ℚ :=
  match lookupA st.books book_id with
  | some book =>
    if book.is_available = false then
      match book.due_date with
      | some due =>
        let days_overdue : Int := Int.fdiv (now - due * 86400) 86400
        if 0 < days_overdue then (days_overdue : ℚ) * fine_rate else 0
      | none => 0
    else 0
  | none => 0

/-- borrow_book of the source: when both identifiers are known and the book
is available, mark it borrowed by the member with a due date fourteen days
from now, append its identifier to the borrowed list of the member, save,
and report success; otherwise report failure with no change. -/
def borrow_book (st : Library) (book_id member_id : String) (now : Int) :
    Bool × Library :=
  match lookupA st.books book_id, lookupA st.members member_id with
  | some book, some _ =>
    if book.is_available then
      let books := updAssoc st.books book_id fun b =>
        { b with is_available := false, borrower := some member_id,
                 due_date := some (dayOf (now + 14 * 86400)) }
      let members := updAssoc st.members member_id fun m =>
        { m with borrowed_books := m.borrowed_books ++ [book_id] }
      (true, save_data { st with books := books, members := members })
    else (false, st)
  | _, _ => (false, st)

/-- return_book of the source: on a known, unavailable book, compute the
fine, look up the recorded borrower, remove the book identifier from the
borrowed list of that member, mark the book available with no borrower and
no due date, save, and report success with the fine. A known available book
or an unknown one reports failure with fine zero and no change. The member
lookup on a missing or unset borrower, and the list removal of an absent
identifier, are the unhandled runtime errors, returned as none. -/
def return_book (st : Library) (book_id : String) (now : Int) :
    Option ((Bool × ℚ) × Library) :=
  match lookupA st.books book_id with
  | some book =>
    if book.is_available then some ((false, 0), st)
    else
      let fine := calculate_fine st book_id now
      match book.borrower with
      | some mid =>
        match lookupA st.members mid with
        | some mem =>
          if book_id ∈ mem.borrowed_books then
            let members := updAssoc st.members mid fun m =>
              { m with borrowed_books := eraseFirst m.borrowed_books book_id }
            let books := updAssoc st.books book_id fun b =>
              { b with is_available := true, borrower := none, due_date := none }
            some ((true, fine), save_data { st with books := books, members := members })
          else none
        | none => none
      | none => none
  | none => some ((false, 0), st)

/-- Does the first list occur contiguously at the head of the second? -/
def strStartsWith : List Char → List Char → Bool
  | [], _ => true
  | _ :: _, [] => false
  | c :: cs, d :: ds => c == d && strStartsWith cs ds

/-- Does the first list occur contiguously anywhere in the second?  This is
the substring containment the runtime applies to strings. -/
def strContainsSub (needle : List Char) : List Char → Bool
  | [] => strStartsWith needle []
  | c :: rest => strStartsWith needle (c :: rest) || strContainsSub needle rest

/-- Character-wise lowercasing of a string. -/
def lowerStr (s : String) : List Char := s.toList.map Char.toLower

/-- search_books of the source: lowercase the query once, then walk the
catalog in order, appending every book whose lowercased title or author
contains it. -/
def search_books (st : Library) (query : String) : List Book :=
  let q := lowerStr query
  st.books.foldl
    (fun results p =>
      if strContainsSub q (lowerStr p.2.title) || strContainsSub q (lowerStr p.2.author)
      then results ++ [p.2] else results) []

/-- The case-insensitive match condition of the search contract: the query
is a substring of the title or of the author, ignoring case. -/
def matchesQuery (query : String) (b : Book) : Bool :=
  strContainsSub (lowerStr query) (lowerStr b.title) ||
  strContainsSub (lowerStr query) (lowerStr b.author)

/-- Executable check of the per-book side of the cross-entity invariant,
strengthened form: the identifier field matches the key; an available book
has no borrower and no due date; an unavailable book has a borrower naming
an existing member, a due date, and its identifier exactly once in the
borrowed list of that member. -/
def bookOkB (members : List (String × Member)) (bid : String) (b : Book) : Bool :=
  b.book_id == bid &&
  (if b.is_available then b.borrower == none && b.due_date == none
   else
     match b.borrower, b.due_date with
     | some mid, some _ =>
       (match lookupA members mid with
        | some mem => countOcc mem.borrowed_books bid == 1
        | none => false)
     | _, _ => false)

/-- Executable check of the per-member side of the strengthened invariant:
the identifier field matches the key, and every identifier in the borrowed
list names an existing book that is unavailable and borrowed by this
member. -/
def memberOkB (books : List (String × Book)) (mid : String) (m : Member) : Bool :=
  m.member_id == mid &&
  m.borrowed_books.all fun bid =>
    match lookupA books bid with
    | some b => !b.is_available && b.borrower == some mid
    | none => false

/-- Executable check that the keys of an association list are pairwise
distinct, as the keys of a runtime mapping are. -/
def keysNodupB {α : Type} (l : List (String × α)) : Bool :=
  decide (l.map Prod.fst).Nodup

/-- Executable strengthened cross-entity invariant of a store. -/
def invB (st : Library) : Bool :=
  keysNodupB st.books && keysNodupB st.members &&
  st.books.all (fun p => bookOkB st.members p.1 p.2) &&
  st.members.all (fun p => memberOkB st.books p.1 p.2)

/-- Executable form of the cross-entity invariant exactly as the design
states it: for every book, borrower and due date are unset exactly when the
book is available; an unavailable book has a borrower naming an existing
member whose borrowed list holds the identifier exactly once; an available
book appears in no borrowed list.  Nothing is required of borrowed-list
entries that name no book. -/
def claimedInvB (st : Library) : Bool :=
  keysNodupB st.books && keysNodupB st.members &&
  st.books.all fun p =>
    ((p.2.borrower == none) == p.2.is_available) &&
    ((p.2.due_date == none) == p.2.is_available) &&
    (if p.2.is_available then
       st.members.all fun q => !(q.2.borrowed_books.contains p.1)
     else
       match p.2.borrower with
       | some mid =>
         (match lookupA st.members mid with
          | some mem => countOcc mem.borrowed_books p.1 == 1
          | none => false)
       | none => false)

/-- Propositional form of the per-book invariant side. -/
def BookOkP (members : List (String × Member)) (bid : String) (b : Book) : Prop :=
  b.book_id = bid ∧
  (b.is_available = true → b.borrower = none ∧ b.due_date = none) ∧
  (b.is_available = false → ∃ mid d mem, b.borrower = some mid ∧
    b.due_date = some d ∧ lookupA members mid = some mem ∧
    countOcc mem.borrowed_books bid = 1)

/-- Propositional form of the per-member invariant side. -/
def MemberOkP (books : List (String × Book)) (mid : String) (m : Member) : Prop :=
  m.member_id = mid ∧
  ∀ bid ∈ m.borrowed_books, ∃ b, lookupA books bid = some b ∧
    b.is_available = false ∧ b.borrower = some mid

/-- Propositional strengthened invariant over the two mappings. -/
def InvBM (books : List (String × Book)) (members : List (String × Member)) : Prop :=
  (books.map Prod.fst).Nodup ∧ (members.map Prod.fst).Nodup ∧
  (∀ p ∈ books, BookOkP members p.1 p.2) ∧
  (∀ p ∈ members, MemberOkP books p.1 p.2)

/-- A store with one book currently borrowed by its one member, satisfying
the strengthened invariant; used to instantiate hypotheses at concrete
inputs. -/
def stInv : Library :=
  ⟨[("B1", ⟨"B1", "T", "A", false, some "M1", some 14⟩)],
   [("M1", ⟨"M1", "N", "E", ["B1"]⟩)], none⟩

/-- A store with one available book and one member holding nothing. -/
def stAvail : Library :=
  ⟨[("B1", ⟨"B1", "Python Programming", "John Smith", true, none, none⟩)],
   [("M1", ⟨"M1", "Alice Brown", "alice@email.com", []⟩)], none⟩

/-- A store with no books and one member whose borrowed list names an
identifier that is not in the catalog; it satisfies the invariant exactly
as the design states it, which constrains books only. -/
def cexC1 : Library :=
  ⟨[], [("M1", ⟨"M1", "N", "E", ["BX"]⟩)], none⟩

/-- A store whose one book is available while its identifier already sits
in the borrowed list of the one member. -/
def cexC2 : Library :=
  ⟨[("B1", ⟨"B1", "T", "A", true, none, none⟩)],
   [("M1", ⟨"M1", "N", "E", ["B1"]⟩)], none⟩

/-- Parsed backing-file content holding a borrowed book whose recorded
borrower does not exist among the members. -/
def dCorrupt : DiskData :=
  ⟨.keyed [("B1", ⟨"B1", "T", "A", false, some "M9", some 14⟩)], .keyed []⟩

/-- The store that loading dCorrupt constructs. -/
def stCorrupt : Library :=
  ⟨[("B1", ⟨"B1", "T", "A", false, some "M9", some 14⟩)], [], some dCorrupt⟩

theorem bookOkB_iff (members : List (String × Member)) (bid : String) (b : Book) :
    bookOkB members bid b = true ↔ BookOkP members bid b := by
  obtain ⟨bi, ti, au, av, br, dd⟩ := b
  cases av
  · cases br with
    | none => simp [bookOkB, BookOkP]
    | some mid =>
      cases dd with
      | none => simp [bookOkB, BookOkP]
      | some d =>
        cases hl : lookupA members mid with
        | none => simp [bookOkB, BookOkP, hl]
        | some mem => simp [bookOkB, BookOkP, hl]
  · simp [bookOkB, BookOkP]

theorem memberOkB_iff (books : List (String × Book)) (mid : String) (m : Member) :
    memberOkB books mid m = true ↔ MemberOkP books mid m := by
  unfold memberOkB MemberOkP
  simp only [Bool.and_eq_true, beq_iff_eq, List.all_eq_true]
  constructor
  · rintro ⟨h1, h2⟩
    refine ⟨h1, fun bid hbid => ?_⟩
    have := h2 bid hbid
    cases hl : lookupA books bid with
    | none => rw [hl] at this; simp at this
    | some b =>
      rw [hl] at this
      simp only [Bool.and_eq_true, Bool.not_eq_true', beq_iff_eq] at this
      exact ⟨b, rfl, this.1, this.2⟩
  · rintro ⟨h1, h2⟩
    refine ⟨h1, fun bid hbid => ?_⟩
    obtain ⟨b, hl, hb1, hb2⟩ := h2 bid hbid
    rw [hl]
    simp [hb1, hb2]

theorem invB_iff (st : Library) : invB st = true ↔ InvBM st.books st.members := by
  unfold invB InvBM keysNodupB
  simp only [Bool.and_eq_true, decide_eq_true_eq, List.all_eq_true]
  constructor
  · rintro ⟨⟨⟨h1, h2⟩, h3⟩, h4⟩
    exact ⟨h1, h2, fun p hp => (bookOkB_iff _ _ _).1 (h3 p hp),
      fun p hp => (memberOkB_iff _ _ _).1 (h4 p hp)⟩
  · rintro ⟨h1, h2, h3, h4⟩
    exact ⟨⟨⟨h1, h2⟩, fun p hp => (bookOkB_iff _ _ _).2 (h3 p hp)⟩,
      fun p hp => (memberOkB_iff _ _ _).2 (h4 p hp)⟩

@[simp] theorem lookupA_nil {α : Type} (k : String) :
    lookupA ([] : List (String × α)) k = none := rfl

@[simp] theorem lookupA_cons {α : Type} (p : String × α) (rest : List (String × α))
    (k : String) :
    lookupA (p :: rest) k = if p.1 = k then some p.2 else lookupA rest k := rfl

@[simp] theorem updAssoc_nil {α : Type} (k : String) (f : α → α) :
    updAssoc ([] : List (String × α)) k f = [] := rfl

@[simp] theorem updAssoc_cons {α : Type} (p : String × α) (rest : List (String × α))
    (k : String) (f : α → α) :
    updAssoc (p :: rest) k f =
      (if p.1 = k then (p.1, f p.2) else p) :: updAssoc rest k f := by
  unfold updAssoc
  rw [List.map_cons]

@[simp] theorem countOcc_nil (x : String) : countOcc [] x = 0 := rfl

@[simp] theorem countOcc_cons (y : String) (rest : List String) (x : String) :
    countOcc (y :: rest) x = (if y = x then 1 else 0) + countOcc rest x := rfl

@[simp] theorem eraseFirst_nil (x : String) : eraseFirst [] x = [] := rfl

@[simp] theorem eraseFirst_cons (y : String) (rest : List String) (x : String) :
    eraseFirst (y :: rest) x = if y = x then rest else y :: eraseFirst rest x := rfl

theorem lookupA_append_left {α : Type} {l l' : List (String × α)} {k : String} {v : α}
    (h : lookupA l k = some v) : lookupA (l ++ l') k = some v := by
  induction l with
  | nil => simp at h
  | cons p rest ih =>
    rw [List.cons_append, lookupA_cons]
    rw [lookupA_cons] at h
    by_cases hk : p.1 = k
    · rw [if_pos hk] at h ⊢
      exact h
    · rw [if_neg hk] at h ⊢
      exact ih h

theorem lookupA_append_right {α : Type} {l : List (String × α)} {k : String}
    (h : lookupA l k = none) (l' : List (String × α)) :
    lookupA (l ++ l') k = lookupA l' k := by
  induction l with
  | nil => simp
  | cons p rest ih =>
    rw [lookupA_cons] at h
    by_cases hk : p.1 = k
    · rw [if_pos hk] at h
      exact absurd h (by simp)
    · rw [if_neg hk] at h
      rw [List.cons_append, lookupA_cons, if_neg hk]
      exact ih h

theorem lookupA_updAssoc {α : Type} (l : List (String × α)) (k k' : String) (f : α → α) :
    lookupA (updAssoc l k f) k' =
      if k' = k then (lookupA l k').map f else lookupA l k' := by
  induction l with
  | nil => simp
  | cons p rest ih =>
    rw [updAssoc_cons]
    by_cases h1 : p.1 = k
    · rw [if_pos h1]
      by_cases h2 : p.1 = k'
      · have hk : k' = k := h2.symm.trans h1
        simp [hk, h2]
      · have hk : ¬ k' = k := fun hh => h2 (h1.trans hh.symm)
        simp [hk, h2, ih]
    · rw [if_neg h1]
      by_cases h2 : p.1 = k'
      · have hk : ¬ k' = k := fun hh => h1 (h2.trans hh)
        simp [hk, h2]
      · simp [h2, ih]

theorem keys_updAssoc {α : Type} (l : List (String × α)) (k : String) (f : α → α) :
    (updAssoc l k f).map Prod.fst = l.map Prod.fst := by
  induction l with
  | nil => rfl
  | cons p rest ih =>
    rw [updAssoc_cons]
    by_cases h : p.1 = k <;> simp [h, ih]

theorem lookupA_eq_none_iff {α : Type} (l : List (String × α)) (k : String) :
    lookupA l k = none ↔ ∀ p ∈ l, p.1 ≠ k := by
  induction l with
  | nil => simp
  | cons p rest ih =>
    rw [lookupA_cons]
    by_cases h : p.1 = k <;> simp [h, ih]

theorem lookupA_mem {α : Type} {l : List (String × α)} {k : String} {v : α}
    (h : lookupA l k = some v) : (k, v) ∈ l := by
  induction l with
  | nil => simp at h
  | cons p rest ih =>
    rw [lookupA_cons] at h
    by_cases hk : p.1 = k
    · rw [if_pos hk] at h
      obtain rfl : p.2 = v := by simpa using h
      subst hk
      simp
    · rw [if_neg hk] at h
      exact List.mem_cons_of_mem _ (ih h)

theorem lookupA_of_mem_nodup {α : Type} {l : List (String × α)} {p : String × α}
    (hn : (l.map Prod.fst).Nodup) (hp : p ∈ l) : lookupA l p.1 = some p.2 := by
  induction l with
  | nil => simp at hp
  | cons q rest ih =>
    simp only [List.map_cons, List.nodup_cons] at hn
    rcases List.mem_cons.1 hp with rfl | hp2
    · simp
    · have hne : q.1 ≠ p.1 := by
        intro he
        exact hn.1 (he ▸ List.mem_map_of_mem Prod.fst hp2)
      rw [lookupA_cons, if_neg hne]
      exact ih hn.2 hp2

theorem countOcc_append (l l' : List String) (x : String) :
    countOcc (l ++ l') x = countOcc l x + countOcc l' x := by
  induction l with
  | nil => simp
  | cons y rest ih =>
    rw [List.cons_append, countOcc_cons, countOcc_cons, ih]
    omega

theorem countOcc_eq_zero_iff (l : List String) (x : String) :
    countOcc l x = 0 ↔ x ∉ l := by
  induction l with
  | nil => simp
  | cons y rest ih =>
    rw [countOcc_cons]
    by_cases h : y = x
    · subst h
      rw [if_pos rfl]
      constructor
      · intro h0
        omega
      · intro h0
        exact absurd (List.mem_cons_self y rest) h0
    · have hxy : ¬ x = y := fun hh => h hh.symm
      simp [h, ih, hxy]

theorem countOcc_eraseFirst (l : List String) (x : String) :
    countOcc (eraseFirst l x) x = countOcc l x - 1 := by
  induction l with
  | nil => simp
  | cons y rest ih =>
    rw [eraseFirst_cons, countOcc_cons]
    by_cases h : y = x <;> simp [h, ih]

theorem mem_eraseFirst_of_ne {y x : String} (hne : y ≠ x) (l : List String) :
    y ∈ eraseFirst l x ↔ y ∈ l := by
  induction l with
  | nil => simp
  | cons z rest ih =>
    rw [eraseFirst_cons]
    by_cases h : z = x
    · subst h
      rw [if_pos rfl]
      simp [List.mem_cons, hne]
    · rw [if_neg h]
      simp [List.mem_cons, ih]

theorem eraseFirst_append_not_mem {x : String} {l : List String} (h : x ∉ l) :
    eraseFirst (l ++ [x]) x = l := by
  induction l with
  | nil => simp
  | cons y rest ih =>
    simp only [List.mem_cons, not_or] at h
    rw [List.cons_append, eraseFirst_cons,
      if_neg (show ¬ y = x from fun hh => h.1 hh.symm), ih h.2]

theorem countOcc_eraseFirst_of_ne {y x : String} (hne : y ≠ x) (l : List String) :
    countOcc (eraseFirst l x) y = countOcc l y := by
  induction l with
  | nil => simp
  | cons z rest ih =>
    rw [eraseFirst_cons, countOcc_cons]
    by_cases h : z = x
    · rw [if_pos h, if_neg (fun hzy : z = y => hne (hzy ▸ h)), Nat.zero_add]
    · rw [if_neg h, countOcc_cons, ih]

theorem countOcc_keys_eq_one {α : Type} {l : List (String × α)} {k : String} {v : α}
    (hn : (l.map Prod.fst).Nodup) (h : lookupA l k = some v) :
    countOcc (l.map Prod.fst) k = 1 := by
  induction l with
  | nil => simp at h
  | cons p rest ih =>
    simp only [List.map_cons, List.nodup_cons] at hn
    rw [lookupA_cons] at h
    rw [List.map_cons, countOcc_cons]
    by_cases hk : p.1 = k
    · rw [if_pos hk]
      have : k ∉ rest.map Prod.fst := hk ▸ hn.1
      rw [Nat.add_comm, (countOcc_eq_zero_iff _ _).2 this]
    · rw [if_neg hk] at h
      rw [if_neg hk, Nat.zero_add]
      exact ih hn.2 h

theorem dayOf_add_14 (now : Int) : dayOf (now + 14 * 86400) = dayOf now + 14 := by
  unfold dayOf
  rw [Int.fdiv_eq_ediv _ (by norm_num), Int.fdiv_eq_ediv _ (by norm_num)]
  exact Int.add_mul_ediv_right now 14 (by norm_num)

theorem add_book_dup {st : Library} {bid : String} {b : Book}
    (h : lookupA st.books bid = some b) (t a : String) :
    add_book st bid t a = (false, st) := by
  unfold add_book
  rw [h]
  rfl

theorem add_book_fresh {st : Library} {bid : String}
    (h : lookupA st.books bid = none) (t a : String) :
    add_book st bid t a =
      (true, save_data { st with
        books := st.books ++ [(bid, ⟨bid, t, a, true, none, none⟩)] }) := by
  unfold add_book
  rw [h]
  rfl

theorem add_member_dup {st : Library} {mid : String} {m : Member}
    (h : lookupA st.members mid = some m) (n e : String) :
    add_member st mid n e = (false, st) := by
  unfold add_member
  rw [h]
  rfl

theorem add_member_fresh {st : Library} {mid : String}
    (h : lookupA st.members mid = none) (n e : String) :
    add_member st mid n e =
      (true, save_data { st with
        members := st.members ++ [(mid, ⟨mid, n, e, []⟩)] }) := by
  unfold add_member
  rw [h]
  rfl

theorem borrow_book_success {st : Library} {bid mid : String} {book : Book}
    {mem : Member} (hb : lookupA st.books bid = some book)
    (hm : lookupA st.members mid = some mem) (hav : book.is_available = true)
    (now : Int) :
    borrow_book st bid mid now =
      (true, save_data { st with
        books := updAssoc st.books bid fun b =>
          { b with is_available := false, borrower := some mid,
                   due_date := some (dayOf (now + 14 * 86400)) },
        members := updAssoc st.members mid fun m =>
          { m with borrowed_books := m.borrowed_books ++ [bid] } }) := by
  unfold borrow_book
  rw [hb, hm]
  simp only [hav, if_true]

theorem borrow_book_noBook {st : Library} {bid : String}
    (hb : lookupA st.books bid = none) (mid : String) (now : Int) :
    borrow_book st bid mid now = (false, st) := by
  unfold borrow_book
  rw [hb]

theorem borrow_book_noMember {st : Library} {mid : String}
    (hm : lookupA st.members mid = none) (bid : String) (now : Int) :
    borrow_book st bid mid now = (false, st) := by
  unfold borrow_book
  rw [hm]
  cases lookupA st.books bid <;> rfl

theorem borrow_book_notAvail {st : Library} {bid : String} {book : Book}
    (hb : lookupA st.books bid = some book) (hav : book.is_available = false)
    (mid : String) (now : Int) :
    borrow_book st bid mid now = (false, st) := by
  unfold borrow_book
  rw [hb]
  cases lookupA st.members mid
  · rfl
  · simp only [hav, Bool.false_eq_true, if_false]

theorem return_book_noBook {st : Library} {bid : String}
    (hb : lookupA st.books bid = none) (now : Int) :
    return_book st bid now = some ((false, 0), st) := by
  unfold return_book
  rw [hb]

theorem return_book_avail {st : Library} {bid : String} {book : Book}
    (hb : lookupA st.books bid = some book) (hav : book.is_available = true)
    (now : Int) :
    return_book st bid now = some ((false, 0), st) := by
  unfold return_book
  rw [hb]
  simp only [hav, if_true]

theorem return_book_success {st : Library} {bid : String} {book : Book}
    {mid : String} {mem : Member} (hb : lookupA st.books bid = some book)
    (hav : book.is_available = false) (hbr : book.borrower = some mid)
    (hm : lookupA st.members mid = some mem) (hin : bid ∈ mem.borrowed_books)
    (now : Int) :
    return_book st bid now =
      some ((true, calculate_fine st bid now), save_data { st with
        books := updAssoc st.books bid fun b =>
          { b with is_available := true, borrower := none, due_date := none },
        members := updAssoc st.members mid fun m =>
          { m with borrowed_books := eraseFirst m.borrowed_books bid } }) := by
  unfold return_book
  rw [hb]
  simp only [hav, Bool.false_eq_true, if_false, hbr, hm, hin, if_true]

theorem lookupA_updAssoc_self {α : Type} (l : List (String × α)) (k : String)
    (f : α → α) : lookupA (updAssoc l k f) k = (lookupA l k).map f := by
  rw [lookupA_updAssoc, if_pos rfl]

theorem lookupA_updAssoc_ne {α : Type} {k' k : String} (hne : k' ≠ k)
    (l : List (String × α)) (f : α → α) :
    lookupA (updAssoc l k f) k' = lookupA l k' := by
  rw [lookupA_updAssoc, if_neg hne]

theorem inv_add_book (st : Library) (bid t a : String)
    (h : InvBM st.books st.members) :
    InvBM (add_book st bid t a).2.books (add_book st bid t a).2.members := by
  cases hex : lookupA st.books bid with
  | some b =>
    rw [add_book_dup hex t a]
    exact h
  | none =>
    rw [add_book_fresh hex t a]
    show InvBM (st.books ++ [(bid, ⟨bid, t, a, true, none, none⟩)]) st.members
    obtain ⟨hn1, hn2, hbk, hmem⟩ := h
    refine ⟨?_, hn2, ?_, ?_⟩
    · simp only [List.map_append, List.map_cons, List.map_nil]
      rw [List.nodup_append]
      refine ⟨hn1, List.nodup_singleton _, ?_⟩
      intro x hx hx2
      obtain rfl : x = bid := by simpa using hx2
      obtain ⟨p, hp, hpe⟩ := List.mem_map.1 hx
      exact (lookupA_eq_none_iff _ _).1 hex p hp hpe
    · intro p hp
      rcases List.mem_append.1 hp with hp1 | hp2
      · exact hbk p hp1
      · obtain rfl : p = (bid, ⟨bid, t, a, true, none, none⟩) := by simpa using hp2
        exact ⟨rfl, fun _ => ⟨rfl, rfl⟩, fun hfalse => Bool.noConfusion hfalse⟩
    · intro q hq
      obtain ⟨hid, hbb⟩ := hmem q hq
      refine ⟨hid, fun bid2 hbid2 => ?_⟩
      obtain ⟨b, hlb, h1, h2⟩ := hbb bid2 hbid2
      exact ⟨b, lookupA_append_left hlb, h1, h2⟩

theorem inv_add_member (st : Library) (mid n e : String)
    (h : InvBM st.books st.members) :
    InvBM (add_member st mid n e).2.books (add_member st mid n e).2.members := by
  cases hex : lookupA st.members mid with
  | some m =>
    rw [add_member_dup hex n e]
    exact h
  | none =>
    rw [add_member_fresh hex n e]
    show InvBM st.books (st.members ++ [(mid, ⟨mid, n, e, []⟩)])
    obtain ⟨hn1, hn2, hbk, hmem⟩ := h
    refine ⟨hn1, ?_, ?_, ?_⟩
    · simp only [List.map_append, List.map_cons, List.map_nil]
      rw [List.nodup_append]
      refine ⟨hn2, List.nodup_singleton _, ?_⟩
      intro x hx hx2
      obtain rfl : x = mid := by simpa using hx2
      obtain ⟨p, hp, hpe⟩ := List.mem_map.1 hx
      exact (lookupA_eq_none_iff _ _).1 hex p hp hpe
    · intro p hp
      obtain ⟨hid, hav, hunav⟩ := hbk p hp
      refine ⟨hid, hav, fun hfalse => ?_⟩
      obtain ⟨mid2, d2, mem2, h1, h2, h3, h4⟩ := hunav hfalse
      exact ⟨mid2, d2, mem2, h1, h2, lookupA_append_left h3, h4⟩
    · intro q hq
      rcases List.mem_append.1 hq with hq1 | hq2
      · exact hmem q hq1
      · obtain rfl : q = (mid, ⟨mid, n, e, []⟩) := by simpa using hq2
        exact ⟨rfl, fun bid2 hbid2 => absurd hbid2 (by simp)⟩

theorem inv_borrow (st : Library) (bid mid : String) (now : Int)
    (h : InvBM st.books st.members) :
    InvBM (borrow_book st bid mid now).2.books (borrow_book st bid mid now).2.members := by
  obtain ⟨hn1, hn2, hbk, hmem⟩ := h
  cases hb : lookupA st.books bid with
  | none =>
    rw [borrow_book_noBook hb mid now]
    exact ⟨hn1, hn2, hbk, hmem⟩
  | some book =>
    cases hm : lookupA st.members mid with
    | none =>
      rw [borrow_book_noMember hm bid now]
      exact ⟨hn1, hn2, hbk, hmem⟩
    | some mem =>
      cases hav : book.is_available with
      | false =>
        rw [borrow_book_notAvail hb hav mid now]
        exact ⟨hn1, hn2, hbk, hmem⟩
      | true =>
        rw [borrow_book_success hb hm hav now]
        show InvBM
          (updAssoc st.books bid fun b =>
            { b with is_available := false, borrower := some mid,
                     due_date := some (dayOf (now + 14 * 86400)) })
          (updAssoc st.members mid fun m =>
            { m with borrowed_books := m.borrowed_books ++ [bid] })
        have bidFresh : ∀ q ∈ st.members, bid ∉ q.2.borrowed_books := by
          intro q hq hbidin
          obtain ⟨b, hlb, hb1, _⟩ := (hmem q hq).2 bid hbidin
          rw [hb] at hlb
          obtain rfl : book = b := Option.some.inj hlb
          rw [hav] at hb1
          exact Bool.noConfusion hb1
        have memFresh : bid ∉ mem.borrowed_books := bidFresh (mid, mem) (lookupA_mem hm)
        refine ⟨?_, ?_, ?_, ?_⟩
        · rw [keys_updAssoc]
          exact hn1
        · rw [keys_updAssoc]
          exact hn2
        · intro p hp
          obtain ⟨q, hq, hqe⟩ := List.mem_map.1 hp
          by_cases hqk : q.1 = bid
          · rw [if_pos hqk] at hqe
            subst hqe
            refine ⟨(hbk q hq).1, fun habs => Bool.noConfusion habs, fun _ => ?_⟩
            refine ⟨mid, dayOf (now + 14 * 86400),
              ⟨mem.member_id, mem.name, mem.email, mem.borrowed_books ++ [bid]⟩,
              rfl, rfl, ?_, ?_⟩
            · rw [lookupA_updAssoc_self, hm]
              rfl
            · show countOcc (mem.borrowed_books ++ [bid]) q.1 = 1
              rw [hqk, countOcc_append, (countOcc_eq_zero_iff _ _).2 memFresh]
              simp
          · rw [if_neg hqk] at hqe
            subst hqe
            obtain ⟨hid, hav2, hunav⟩ := hbk q hq
            refine ⟨hid, hav2, fun hfalse => ?_⟩
            obtain ⟨mid2, d2, mem2, h1, h2, h3, h4⟩ := hunav hfalse
            by_cases hm2 : mid2 = mid
            · subst hm2
              rw [hm] at h3
              obtain rfl : mem = mem2 := Option.some.inj h3
              refine ⟨mid2, d2,
                ⟨mem.member_id, mem.name, mem.email, mem.borrowed_books ++ [bid]⟩,
                h1, h2, ?_, ?_⟩
              · rw [lookupA_updAssoc_self, hm]
                rfl
              · show countOcc (mem.borrowed_books ++ [bid]) q.1 = 1
                rw [countOcc_append, h4, (countOcc_eq_zero_iff _ _).2 (by simp [hqk])]
            · refine ⟨mid2, d2, mem2, h1, h2, ?_, h4⟩
              rw [lookupA_updAssoc_ne hm2]
              exact h3
        · intro q' hq'
          obtain ⟨q, hq, hqe⟩ := List.mem_map.1 hq'
          obtain ⟨hid, hbb⟩ := hmem q hq
          by_cases hqk : q.1 = mid
          · rw [if_pos hqk] at hqe
            subst hqe
            refine ⟨hid, fun bid2 hbid2 => ?_⟩
            have hbid2a : bid2 ∈ q.2.borrowed_books ++ [bid] := hbid2
            rcases List.mem_append.1 hbid2a with hold | hnew
            · obtain ⟨b, hlb, hb1, hb2⟩ := hbb bid2 hold
              have hne : bid2 ≠ bid := by
                intro he
                subst he
                rw [hb] at hlb
                obtain rfl : book = b := Option.some.inj hlb
                rw [hav] at hb1
                exact Bool.noConfusion hb1
              refine ⟨b, ?_, hb1, hb2⟩
              rw [lookupA_updAssoc_ne hne]
              exact hlb
            · obtain rfl : bid2 = bid := by simpa using hnew
              refine ⟨⟨book.book_id, book.title, book.author, false, some mid,
                some (dayOf (now + 14 * 86400))⟩, ?_, rfl, ?_⟩
              · rw [lookupA_updAssoc_self, hb]
                rfl
              · exact congrArg some hqk.symm
          · rw [if_neg hqk] at hqe
            subst hqe
            refine ⟨hid, fun bid2 hbid2 => ?_⟩
            obtain ⟨b, hlb, hb1, hb2⟩ := hbb bid2 hbid2
            have hne : bid2 ≠ bid := fun he => bidFresh q hq (he ▸ hbid2)
            refine ⟨b, ?_, hb1, hb2⟩
            rw [lookupA_updAssoc_ne hne]
            exact hlb

theorem inv_return (st : Library) (bid : String) (now : Int)
    (h : InvBM st.books st.members) :
    ∃ r, return_book st bid now = some r ∧ InvBM r.2.books r.2.members := by
  obtain ⟨hn1, hn2, hbk, hmem⟩ := h
  cases hb : lookupA st.books bid with
  | none => exact ⟨((false, 0), st), return_book_noBook hb now, hn1, hn2, hbk, hmem⟩
  | some book =>
    cases hav : book.is_available with
    | true => exact ⟨((false, 0), st), return_book_avail hb hav now, hn1, hn2, hbk, hmem⟩
    | false =>
      obtain ⟨mid, d, mem, hbr, hdd, hm, hcount⟩ :=
        (hbk (bid, book) (lookupA_mem hb)).2.2 hav
      have hin : bid ∈ mem.borrowed_books := by
        by_contra hni
        rw [(countOcc_eq_zero_iff _ _).2 hni] at hcount
        exact absurd hcount (by decide)
      refine ⟨_, return_book_success hb hav hbr hm hin now, ?_⟩
      show InvBM
        (updAssoc st.books bid fun b =>
          { b with is_available := true, borrower := none, due_date := none })
        (updAssoc st.members mid fun m =>
          { m with borrowed_books := eraseFirst m.borrowed_books bid })
      have uniqueBorrower : ∀ q ∈ st.members, bid ∈ q.2.borrowed_books → q.1 = mid := by
        intro q hq hbin
        obtain ⟨b, hlb, _, hb2⟩ := (hmem q hq).2 bid hbin
        rw [hb] at hlb
        obtain rfl : book = b := Option.some.inj hlb
        rw [hbr] at hb2
        exact (Option.some.inj hb2).symm
      refine ⟨?_, ?_, ?_, ?_⟩
      · rw [keys_updAssoc]
        exact hn1
      · rw [keys_updAssoc]
        exact hn2
      · intro p hp
        obtain ⟨q, hq, hqe⟩ := List.mem_map.1 hp
        by_cases hqk : q.1 = bid
        · rw [if_pos hqk] at hqe
          subst hqe
          exact ⟨(hbk q hq).1, fun _ => ⟨rfl, rfl⟩, fun hfalse => Bool.noConfusion hfalse⟩
        · rw [if_neg hqk] at hqe
          subst hqe
          obtain ⟨hid, hav2, hunav⟩ := hbk q hq
          refine ⟨hid, hav2, fun hfalse => ?_⟩
          obtain ⟨mid2, d2, mem2, h1, h2, h3, h4⟩ := hunav hfalse
          by_cases hm2 : mid2 = mid
          · subst hm2
            rw [hm] at h3
            obtain rfl : mem = mem2 := Option.some.inj h3
            refine ⟨mid2, d2,
              ⟨mem.member_id, mem.name, mem.email, eraseFirst mem.borrowed_books bid⟩,
              h1, h2, ?_, ?_⟩
            · rw [lookupA_updAssoc_self, hm]
              rfl
            · show countOcc (eraseFirst mem.borrowed_books bid) q.1 = 1
              rw [countOcc_eraseFirst_of_ne hqk]
              exact h4
          · refine ⟨mid2, d2, mem2, h1, h2, ?_, h4⟩
            rw [lookupA_updAssoc_ne hm2]
            exact h3
      · intro q' hq'
        obtain ⟨q, hq, hqe⟩ := List.mem_map.1 hq'
        obtain ⟨hid, hbb⟩ := hmem q hq
        by_cases hqk : q.1 = mid
        · rw [if_pos hqk] at hqe
          subst hqe
          refine ⟨hid, fun bid2 hbid2 => ?_⟩
          have hq2 : q.2 = mem := by
            have hlq := lookupA_of_mem_nodup hn2 hq
            rw [hqk, hm] at hlq
            exact (Option.some.inj hlq).symm
          have hbid2a : bid2 ∈ eraseFirst q.2.borrowed_books bid := hbid2
          have hnotin : bid ∉ eraseFirst mem.borrowed_books bid :=
            (countOcc_eq_zero_iff _ _).1 (by rw [countOcc_eraseFirst, hcount])
          have hbne : bid2 ≠ bid := by
            intro he
            subst he
            rw [hq2] at hbid2a
            exact hnotin hbid2a
          have hbmem : bid2 ∈ q.2.borrowed_books := (mem_eraseFirst_of_ne hbne _).1 hbid2a
          obtain ⟨b, hlb, hb1, hb2⟩ := hbb bid2 hbmem
          refine ⟨b, ?_, hb1, hb2⟩
          rw [lookupA_updAssoc_ne hbne]
          exact hlb
        · rw [if_neg hqk] at hqe
          subst hqe
          refine ⟨hid, fun bid2 hbid2 => ?_⟩
          obtain ⟨b, hlb, hb1, hb2⟩ := hbb bid2 hbid2
          have hbne : bid2 ≠ bid := by
            intro he
            subst he
            exact hqk (uniqueBorrower q hq hbid2)
          refine ⟨b, ?_, hb1, hb2⟩
          rw [lookupA_updAssoc_ne hbne]
          exact hlb

theorem strContainsSub_nil (hay : List Char) : strContainsSub [] hay = true := by
  cases hay <;> rfl

theorem search_foldl (q : List Char) (l : List (String × Book)) (acc : List Book) :
    l.foldl
      (fun results p =>
        if strContainsSub q (lowerStr p.2.title) || strContainsSub q (lowerStr p.2.author)
        then results ++ [p.2] else results) acc =
      acc ++ (l.filter fun p =>
        strContainsSub q (lowerStr p.2.title) ||
        strContainsSub q (lowerStr p.2.author)).map Prod.snd := by
  induction l generalizing acc with
  | nil => simp
  | cons p rest ih =>
    rw [List.foldl_cons]
    by_cases h : (strContainsSub q (lowerStr p.2.title) ||
        strContainsSub q (lowerStr p.2.author)) = true
    · rw [if_pos h, ih]
      simp [List.filter_cons, h]
    · rw [if_neg h, ih]
      simp [List.filter_cons, h]

theorem search_books_eq_filter (st : Library) (q : String) :
    search_books st q = (st.books.filter fun p => matchesQuery q p.2).map Prod.snd := by
  show st.books.foldl
      (fun results p =>
        if strContainsSub (lowerStr q) (lowerStr p.2.title) ||
           strContainsSub (lowerStr q) (lowerStr p.2.author)
        then results ++ [p.2] else results) [] = _
  rw [search_foldl, List.nil_append]
  rfl

theorem fine_formula {st : Library} {bid : String} {book : Book} {d : Int}
    (hb : lookupA st.books bid = some book) (hav : book.is_available = false)
    (hdd : book.due_date = some d) (now : Int) :
    calculate_fine st bid now =
      if 0 < Int.fdiv (now - d * 86400) 86400
      then ((Int.fdiv (now - d * 86400) 86400 : Int) : ℚ) * fine_rate else 0 := by
  unfold calculate_fine
  rw [hb]
  simp only [hav, hdd, eq_self_iff_true, if_true]

theorem fine_noBook {st : Library} {bid : String}
    (hb : lookupA st.books bid = none) (now : Int) :
    calculate_fine st bid now = 0 := by
  unfold calculate_fine
  rw [hb]

theorem fine_avail {st : Library} {bid : String} {book : Book}
    (hb : lookupA st.books bid = some book) (hav : book.is_available = true)
    (now : Int) : calculate_fine st bid now = 0 := by
  unfold calculate_fine
  rw [hb]
  simp only [hav, Bool.true_eq_false, if_false]

theorem fine_noDue {st : Library} {bid : String} {book : Book}
    (hb : lookupA st.books bid = some book) (hdd : book.due_date = none)
    (now : Int) : calculate_fine st bid now = 0 := by
  unfold calculate_fine
  rw [hb]
  cases havb : book.is_available with
  | true => simp only [havb, Bool.true_eq_false, if_false]
  | false => simp only [havb, hdd, eq_self_iff_true, if_true]

theorem fdiv_day_mono {d now now2 : Int} (h : now ≤ now2) :
    Int.fdiv (now - d * 86400) 86400 ≤ Int.fdiv (now2 - d * 86400) 86400 := by
  rw [Int.fdiv_eq_ediv _ (by norm_num), Int.fdiv_eq_ediv _ (by norm_num)]
  exact Int.ediv_le_ediv (by norm_num) (by omega)

/-- Claim C3: for a known, unavailable book with a due date, the fine is the
number of whole days past the start of the due day times the fine rate when
that number is positive and exactly zero otherwise; the fine is zero for an
unknown book, an available book, or a book without a due date; it is never
negative; and it is monotonically non-decreasing in the current time. -/
theorem C3_fine_spec (st : Library) (bid : String) (now now2 : Int) :
    (∀ book d, lookupA st.books bid = some book → book.is_available = false →
      book.due_date = some d →
      (0 < Int.fdiv (now - d * 86400) 86400 →
        calculate_fine st bid now =
          ((Int.fdiv (now - d * 86400) 86400 : Int) : ℚ) * fine_rate) ∧
      (Int.fdiv (now - d * 86400) 86400 ≤ 0 → calculate_fine st bid now = 0)) ∧
    (lookupA st.books bid = none → calculate_fine st bid now = 0) ∧
    (∀ book, lookupA st.books bid = some book → book.is_available = true →
      calculate_fine st bid now = 0) ∧
    (∀ book, lookupA st.books bid = some book → book.due_date = none →
      calculate_fine st bid now = 0) ∧
    0 ≤ calculate_fine st bid now ∧
    (now ≤ now2 → calculate_fine st bid now ≤ calculate_fine st bid now2) := by
  have hnonneg : ∀ t : Int, 0 ≤ calculate_fine st bid t := by
    intro t
    cases hb : lookupA st.books bid with
    | none => rw [fine_noBook hb t]
    | some book =>
      cases hav : book.is_available with
      | true => rw [fine_avail hb hav t]
      | false =>
        cases hdd : book.due_date with
        | none => rw [fine_noDue hb hdd t]
        | some d =>
          rw [fine_formula hb hav hdd t]
          by_cases hpos : 0 < Int.fdiv (t - d * 86400) 86400
          · rw [if_pos hpos]
            have h0 : (0 : ℚ) ≤ ((Int.fdiv (t - d * 86400) 86400 : Int) : ℚ) := by
              exact_mod_cast le_of_lt hpos
            simpa [fine_rate] using h0
          · rw [if_neg hpos]
  refine ⟨?_, fun hb => fine_noBook hb now, fun book hb hav => fine_avail hb hav now,
    fun book hb hdd => fine_noDue hb hdd now, hnonneg now, ?_⟩
  · intro book d hb hav hdd
    rw [fine_formula hb hav hdd now]
    constructor
    · intro hpos
      rw [if_pos hpos]
    · intro hle
      rw [if_neg (not_lt.2 hle)]
  · intro hle
    cases hb : lookupA st.books bid with
    | none =>
      rw [fine_noBook hb now, fine_noBook hb now2]
    | some book =>
      cases hav : book.is_available with
      | true => rw [fine_avail hb hav now, fine_avail hb hav now2]
      | false =>
        cases hdd : book.due_date with
        | none => rw [fine_noDue hb hdd now, fine_noDue hb hdd now2]
        | some d =>
          rw [fine_formula hb hav hdd now, fine_formula hb hav hdd now2]
          have hdiv := fdiv_day_mono (d := d) hle
          by_cases h1 : 0 < Int.fdiv (now - d * 86400) 86400
          · rw [if_pos h1, if_pos (lt_of_lt_of_le h1 hdiv)]
            have hc : ((Int.fdiv (now - d * 86400) 86400 : Int) : ℚ) ≤
                ((Int.fdiv (now2 - d * 86400) 86400 : Int) : ℚ) := by
              exact_mod_cast hdiv
            simpa [fine_rate] using hc
          · rw [if_neg h1]
            by_cases h2 : 0 < Int.fdiv (now2 - d * 86400) 86400
            · rw [if_pos h2]
              have h0 : (0 : ℚ) ≤ ((Int.fdiv (now2 - d * 86400) 86400 : Int) : ℚ) := by
                exact_mod_cast le_of_lt h2
              simpa [fine_rate] using h0
            · rw [if_neg h2]

/-- Witness for C3 at a concrete store: sixteen whole days past the due day
yields a fine of sixteen times the rate, and the fine sixteen days after the
due day dominates the fine on the due day. -/
theorem C3_fine_spec_witness :
    calculate_fine stInv "B1" (30 * 86400) =
      ((Int.fdiv (30 * 86400 - 14 * 86400) 86400 : Int) : ℚ) * fine_rate ∧
    calculate_fine stInv "B1" (14 * 86400) ≤ calculate_fine stInv "B1" (30 * 86400) :=
  ⟨((C3_fine_spec stInv "B1" (30 * 86400) 0).1
      ⟨"B1", "T", "A", false, some "M1", some 14⟩ 14 (by decide) rfl rfl).1 (by decide),
   (C3_fine_spec stInv "B1" (14 * 86400) (30 * 86400)).2.2.2.2.2 (by decide)⟩

/-- Claim C4: a borrow with an unknown book, an unknown member, or an
unavailable book, and a return with an unknown book or an available book,
each report failure, return the store completely unchanged, both mappings
and backing file included, and the return case reports a fine of zero. -/
theorem C4_failure_no_mutation (st : Library) (bid mid : String) (now : Int) :
    ((lookupA st.books bid = none ∨ lookupA st.members mid = none ∨
        (∃ b, lookupA st.books bid = some b ∧ b.is_available = false)) →
      borrow_book st bid mid now = (false, st)) ∧
    ((lookupA st.books bid = none ∨
        (∃ b, lookupA st.books bid = some b ∧ b.is_available = true)) →
      return_book st bid now = some ((false, 0), st)) := by
  constructor
  · rintro (h | h | ⟨b, hb, hav⟩)
    · exact borrow_book_noBook h mid now
    · exact borrow_book_noMember h bid now
    · exact borrow_book_notAvail hb hav mid now
  · rintro (h | ⟨b, hb, hav⟩)
    · exact return_book_noBook h now
    · exact return_book_avail hb hav now

/-- Witness for C4: borrowing and returning an unknown book on a concrete
store fails and leaves the store untouched. -/
theorem C4_failure_no_mutation_witness :
    borrow_book stInv "B9" "M1" 0 = (false, stInv) ∧
    return_book stInv "B9" 0 = some ((false, 0), stInv) :=
  ⟨(C4_failure_no_mutation stInv "B9" "M1" 0).1 (Or.inl (by decide)),
   (C4_failure_no_mutation stInv "B9" "M1" 0).2 (Or.inl (by decide))⟩

/-- Claim C5: when the book and the member exist and the book is available,
borrowing succeeds, the book becomes unavailable with the member recorded as
borrower and a due date of the current calendar day plus fourteen, the book
identifier is appended to the borrowed list of the member, and the updated
mappings are written to the backing file. -/
theorem C5_borrow_success (st : Library) (bid mid : String) (now : Int)
    (book : Book) (mem : Member)
    (hb : lookupA st.books bid = some book) (hav : book.is_available = true)
    (hm : lookupA st.members mid = some mem) :
    (borrow_book st bid mid now).1 = true ∧
    lookupA (borrow_book st bid mid now).2.books bid =
      some ⟨book.book_id, book.title, book.author, false, some mid,
        some (dayOf now + 14)⟩ ∧
    lookupA (borrow_book st bid mid now).2.members mid =
      some ⟨mem.member_id, mem.name, mem.email, mem.borrowed_books ++ [bid]⟩ ∧
    (borrow_book st bid mid now).2.disk =
      some (encode (borrow_book st bid mid now).2.books
        (borrow_book st bid mid now).2.members) := by
  rw [borrow_book_success hb hm hav now]
  refine ⟨rfl, ?_, ?_, rfl⟩
  · show lookupA (updAssoc st.books bid fun b =>
        { b with is_available := false, borrower := some mid,
                 due_date := some (dayOf (now + 14 * 86400)) }) bid =
      some ⟨book.book_id, book.title, book.author, false, some mid,
        some (dayOf now + 14)⟩
    rw [lookupA_updAssoc_self, hb, Option.map_some', dayOf_add_14]
  · show lookupA (updAssoc st.members mid fun m =>
        { m with borrowed_books := m.borrowed_books ++ [bid] }) mid =
      some ⟨mem.member_id, mem.name, mem.email, mem.borrowed_books ++ [bid]⟩
    rw [lookupA_updAssoc_self, hm, Option.map_some']

/-- Witness for C5 on a concrete store with one available book and one
member. -/
theorem C5_borrow_success_witness :
    (borrow_book stAvail "B1" "M1" 0).1 = true ∧
    lookupA (borrow_book stAvail "B1" "M1" 0).2.books "B1" =
      some ⟨"B1", "Python Programming", "John Smith", false, some "M1",
        some (dayOf 0 + 14)⟩ ∧
    lookupA (borrow_book stAvail "B1" "M1" 0).2.members "M1" =
      some ⟨"M1", "Alice Brown", "alice@email.com", [] ++ ["B1"]⟩ ∧
    (borrow_book stAvail "B1" "M1" 0).2.disk =
      some (encode (borrow_book stAvail "B1" "M1" 0).2.books
        (borrow_book stAvail "B1" "M1" 0).2.members) :=
  C5_borrow_success stAvail "B1" "M1" 0
    ⟨"B1", "Python Programming", "John Smith", true, none, none⟩
    ⟨"M1", "Alice Brown", "alice@email.com", []⟩ (by decide) rfl (by decide)

/-- Claim C6: adding a book under an existing identifier fails with no state
change and no save, the catalog keeping exactly one entry under that
identifier, while a fresh identifier creates an available book with no
borrower and no due date and saves; adding a member follows the same
collision policy and creates a member with an empty borrowed list. -/
theorem C6_add_operations (st : Library) (bid t a mid n e : String) :
    (∀ b, lookupA st.books bid = some b →
      add_book st bid t a = (false, st) ∧
      ((st.books.map Prod.fst).Nodup → countOcc (st.books.map Prod.fst) bid = 1)) ∧
    (lookupA st.books bid = none →
      (add_book st bid t a).1 = true ∧
      (add_book st bid t a).2.books =
        st.books ++ [(bid, ⟨bid, t, a, true, none, none⟩)] ∧
      (add_book st bid t a).2.members = st.members ∧
      (add_book st bid t a).2.disk =
        some (encode (add_book st bid t a).2.books st.members)) ∧
    (∀ m, lookupA st.members mid = some m → add_member st mid n e = (false, st)) ∧
    (lookupA st.members mid = none →
      (add_member st mid n e).1 = true ∧
      (add_member st mid n e).2.members =
        st.members ++ [(mid, ⟨mid, n, e, []⟩)] ∧
      (add_member st mid n e).2.books = st.books ∧
      (add_member st mid n e).2.disk =
        some (encode st.books (add_member st mid n e).2.members)) := by
  refine ⟨?_, ?_, ?_, ?_⟩
  · intro b hb
    exact ⟨add_book_dup hb t a, fun hn => countOcc_keys_eq_one hn hb⟩
  · intro hb
    rw [add_book_fresh hb t a]
    exact ⟨rfl, rfl, rfl, rfl⟩
  · intro m hm
    exact add_member_dup hm n e
  · intro hm
    rw [add_member_fresh hm n e]
    exact ⟨rfl, rfl, rfl, rfl⟩

/-- Witness for C6 on a concrete store: a duplicate book identifier is
rejected with the catalog unchanged and still holding one entry for it,
while fresh identifiers are accepted. -/
theorem C6_add_operations_witness :
    add_book stInv "B1" "X" "Y" = (false, stInv) ∧
    countOcc (stInv.books.map Prod.fst) "B1" = 1 ∧
    (add_book stInv "B2" "T2" "A2").1 = true ∧
    (add_member stInv "M2" "N2" "E2").1 = true :=
  ⟨((C6_add_operations stInv "B1" "X" "Y" "M2" "N2" "E2").1
      ⟨"B1", "T", "A", false, some "M1", some 14⟩ (by decide)).1,
   ((C6_add_operations stInv "B1" "X" "Y" "M2" "N2" "E2").1
      ⟨"B1", "T", "A", false, some "M1", some 14⟩ (by decide)).2 (by decide),
   ((C6_add_operations stInv "B2" "T2" "A2" "M2" "N2" "E2").2.1 (by decide)).1,
   ((C6_add_operations stInv "B1" "X" "Y" "M2" "N2" "E2").2.2.2 (by decide)).1⟩

/-- Claim C7: a save writes the keyed shape of both mappings to the backing
file and loading that content reconstructs identical books and members
mappings; moreover decoding the legacy list shape and decoding the keyed
shape of the same entities produce identical in-memory mappings keyed by
identifier. -/
theorem C7_persistence_round_trip (st : Library) (bl : List Book)
    (ml : List Member) :
    (save_data st).disk = some (encode st.books st.members) ∧
    load_data (.parsed (encode st.books st.members)) =
      .ok ⟨st.books, st.members, some (encode st.books st.members)⟩ ∧
    decodeBooks (.listed bl) = decodeBooks (.keyed (bl.map fun b => (b.book_id, b))) ∧
    decodeMembers (.listed ml) =
      decodeMembers (.keyed (ml.map fun m => (m.member_id, m))) :=
  ⟨rfl, rfl, rfl, rfl⟩

/-- Counterexample to C8: a parsed backing file holding a book whose
recorded borrower does not exist among the members is accepted by load into
the store, not rejected with a fatal error. -/
theorem C8_counterexample :
    load_data (.parsed dCorrupt) = .ok stCorrupt ∧
    load_data (.parsed dCorrupt) ≠ .error () :=
  ⟨rfl, fun h => by
    rw [show load_data (.parsed dCorrupt) = .ok stCorrupt from rfl] at h
    exact Except.noConfusion h⟩

/-- Claim C8 (amended): an unparseable backing file is fatal at store
construction, while any parseable content is accepted with no validation at
all; in particular a book with a borrower identifier that names no member
is loaded into the store without error. -/
theorem C8_load_behavior (d : DiskData) :
    load_data .unparseable = .error () ∧
    load_data (.parsed d) =
      .ok ⟨decodeBooks d.books, decodeMembers d.members, some d⟩ ∧
    load_data (.parsed dCorrupt) = .ok stCorrupt :=
  ⟨rfl, rfl, rfl⟩

/-- Claim C9: search returns exactly the books whose title or author
contains the query as a case-insensitive substring, in catalog order, and
the empty query returns every book. -/
theorem C9_search_spec (st : Library) (q : String) :
    search_books st q = (st.books.filter fun p => matchesQuery q p.2).map Prod.snd ∧
    search_books st "" = st.books.map Prod.snd := by
  refine ⟨search_books_eq_filter st q, ?_⟩
  rw [search_books_eq_filter st ""]
  have hall : ∀ p ∈ st.books, matchesQuery "" p.2 = true := by
    intro p _
    unfold matchesQuery
    rw [show lowerStr "" = [] from rfl, strContainsSub_nil]
    simp
  rw [List.filter_eq_self.2 hall]

/-- Claim C10: loading a backing file whose borrowed book names a
nonexistent borrower succeeds, and returning that book then hits the
member lookup on the missing borrower identifier and dies with an
unhandled error instead of reporting the documented failure with fine
zero. -/
theorem C10_return_crash :
    load_data (.parsed dCorrupt) = .ok stCorrupt ∧
    (∃ b, lookupA stCorrupt.books "B1" = some b ∧ b.is_available = false ∧
      b.borrower = some "M9" ∧ lookupA stCorrupt.members "M9" = none) ∧
    return_book stCorrupt "B1" 0 = none :=
  ⟨rfl, ⟨⟨"B1", "T", "A", false, some "M9", some 14⟩, rfl, rfl, rfl, rfl⟩, rfl⟩

/-- Counterexample to C1 as stated: a store satisfying the cross-entity
invariant exactly as the design words it, constraining books only, on which
the public add operation produces a store violating it, because a borrowed
list may reference an identifier that is not yet in the catalog. -/
theorem C1_counterexample :
    claimedInvB cexC1 = true ∧
    (add_book cexC1 "BX" "T" "A").1 = true ∧
    claimedInvB (add_book cexC1 "BX" "T" "A").2 = false := by
  decide

/-- Claim C1 (amended): every mutating public operation preserves the
cross-entity invariant strengthened to also require that every entry of any
borrowed list names an existing catalog book that is unavailable and
borrowed by precisely that member; the search operation takes the store
immutably and returns a list, so it cannot change the store at all. -/
theorem C1_invariant_preserved (st : Library) (bid t a mid n e : String)
    (now : Int) (h : invB st = true) :
    invB (add_book st bid t a).2 = true ∧
    invB (add_member st mid n e).2 = true ∧
    invB (borrow_book st bid mid now).2 = true ∧
    ∃ r, return_book st bid now = some r ∧ invB r.2 = true := by
  rw [invB_iff] at h
  refine ⟨?_, ?_, ?_, ?_⟩
  · rw [invB_iff]
    exact inv_add_book st bid t a h
  · rw [invB_iff]
    exact inv_add_member st mid n e h
  · rw [invB_iff]
    exact inv_borrow st bid mid now h
  · obtain ⟨r, h1, h2⟩ := inv_return st bid now h
    exact ⟨r, h1, (invB_iff r.2).2 h2⟩

/-- Witness for C1 on a concrete store satisfying the strengthened
invariant, exercising all four mutating operations. -/
theorem C1_invariant_preserved_witness :
    invB stInv = true ∧
    (invB (add_book stInv "B1" "T" "A").2 = true ∧
     invB (add_member stInv "M1" "N" "E").2 = true ∧
     invB (borrow_book stInv "B1" "M1" 0).2 = true ∧
     ∃ r, return_book stInv "B1" 0 = some r ∧ invB r.2 = true) :=
  ⟨by decide, C1_invariant_preserved stInv "B1" "T" "A" "M1" "N" "E" 0 (by decide)⟩

/-- Counterexample to C2 as stated: a store where the book and member exist
and the book is available, so a borrow succeeds, but the member already held
the book identifier in the borrowed list; the removal in the subsequent
return strips one occurrence only, so the identifier is still in the
borrowed list after the round trip. -/
theorem C2_counterexample :
    lookupA cexC2.books "B1" = some ⟨"B1", "T", "A", true, none, none⟩ ∧
    lookupA cexC2.members "M1" = some ⟨"M1", "N", "E", ["B1"]⟩ ∧
    (borrow_book cexC2 "B1" "M1" 0).1 = true ∧
    (return_book (borrow_book cexC2 "B1" "M1" 0).2 "B1" 0).map
        (fun r => (r.1.1, (lookupA r.2.members "M1").map
          (fun m => m.borrowed_books.contains "B1"))) = some (true, some true) := by
  decide

/-- Claim C2 (amended): on a store where the book and member exist, the book
is available, and the member does not already hold the book identifier, a
successful borrow followed by a return restores the book to available with
no borrower and no due date, leaves its identity fields unchanged, and
removes the identifier from the borrowed list of the member, restoring the
list exactly. -/
theorem C2_round_trip (st : Library) (bid mid : String) (now now2 : Int)
    (book : Book) (mem : Member)
    (hb : lookupA st.books bid = some book) (hav : book.is_available = true)
    (hm : lookupA st.members mid = some mem) (hnotin : bid ∉ mem.borrowed_books) :
    (borrow_book st bid mid now).1 = true ∧
    ∃ fine st2,
      return_book (borrow_book st bid mid now).2 bid now2 = some ((true, fine), st2) ∧
      lookupA st2.books bid =
        some ⟨book.book_id, book.title, book.author, true, none, none⟩ ∧
      ∃ mem2, lookupA st2.members mid = some mem2 ∧
        mem2.borrowed_books = mem.borrowed_books ∧
        bid ∉ mem2.borrowed_books := by
  have hsucc : (borrow_book st bid mid now).1 = true := by
    rw [borrow_book_success hb hm hav now]
  have hb1 : lookupA (borrow_book st bid mid now).2.books bid =
      some ⟨book.book_id, book.title, book.author, false, some mid,
        some (dayOf (now + 14 * 86400))⟩ := by
    rw [borrow_book_success hb hm hav now]
    show lookupA (updAssoc st.books bid fun b =>
        { b with is_available := false, borrower := some mid,
                 due_date := some (dayOf (now + 14 * 86400)) }) bid = _
    rw [lookupA_updAssoc_self, hb, Option.map_some']
  have hm1 : lookupA (borrow_book st bid mid now).2.members mid =
      some ⟨mem.member_id, mem.name, mem.email, mem.borrowed_books ++ [bid]⟩ := by
    rw [borrow_book_success hb hm hav now]
    show lookupA (updAssoc st.members mid fun m =>
        { m with borrowed_books := m.borrowed_books ++ [bid] }) mid = _
    rw [lookupA_updAssoc_self, hm, Option.map_some']
  refine ⟨hsucc, ?_⟩
  rw [return_book_success hb1 rfl rfl hm1 (List.mem_append_right _ (by simp)) now2]
  refine ⟨_, _, rfl, ?_, ?_⟩
  · show lookupA (updAssoc (borrow_book st bid mid now).2.books bid fun b =>
        { b with is_available := true, borrower := none, due_date := none }) bid = _
    rw [lookupA_updAssoc_self, hb1, Option.map_some']
  · refine ⟨⟨mem.member_id, mem.name, mem.email,
      eraseFirst (mem.borrowed_books ++ [bid]) bid⟩, ?_, ?_, ?_⟩
    · show lookupA (updAssoc (borrow_book st bid mid now).2.members mid fun m =>
          { m with borrowed_books := eraseFirst m.borrowed_books bid }) mid = _
      rw [lookupA_updAssoc_self, hm1, Option.map_some']
    · exact eraseFirst_append_not_mem hnotin
    · rw [show eraseFirst (mem.borrowed_books ++ [bid]) bid = mem.borrowed_books
        from eraseFirst_append_not_mem hnotin]
      exact hnotin

/-- Witness for C2 on a concrete store with one available book and one
member holding nothing. -/
theorem C2_round_trip_witness :
    (borrow_book stAvail "B1" "M1" 0).1 = true ∧
    ∃ fine st2,
      return_book (borrow_book stAvail "B1" "M1" 0).2 "B1" 0 =
        some ((true, fine), st2) ∧
      lookupA st2.books "B1" =
        some ⟨"B1", "Python Programming", "John Smith", true, none, none⟩ ∧
      ∃ mem2, lookupA st2.members "M1" = some mem2 ∧
        mem2.borrowed_books = ([] : List String) ∧
        "B1" ∉ mem2.borrowed_books :=
  C2_round_trip stAvail "B1" "M1" 0 0
    ⟨"B1", "Python Programming", "John Smith", true, none, none⟩
    ⟨"M1", "Alice Brown", "alice@email.com", []⟩
    (by decide) rfl (by decide) (by decide)

end LMS
